import Mathlib

/-!
Verification of the fuse_tcmur gateway (fuse_tree.c, libtcmur.c, fuse_tcmur.c,
fuse_tcmur_ctl.c) against its natural-language specification.

The development shallowly embeds the C data structures and functions:

* `FNode` embeds `struct fuse_node` (fuse_tree.c): an intrusive
  parent/first-child/next-sibling tree, rendered here as a node datum plus the
  list of children in sibling order (the head of the list is the node most
  recently linked by `fnode_add`, which pushes at the front).
* `TcmurHandler` and `TcmuDevice` embed `struct tcmur_handler` and
  `struct tcmu_device` (libtcmur.c).  Function pointers of the handler are
  embedded as presence flags (`has_read`, ...), since only their NULL-ness is
  inspected by the embedded control paths; the `hid` field models the address
  identity of the heap-allocated handler struct (C code compares handler
  pointers with `==`).
* C strings are embedded as `List Char` (the characters before the
  terminating NUL) where the C code walks them byte-by-byte (paths, names),
  and as `String` where they are only compared wholesale (subtype, devname).
* Machine integers are embedded as `Nat`/`Int`; the only place the source
  can overflow on the paths studied here is the `uint64` device-size product,
  which is reduced `% 2^64`.
* A C execution that dereferences NULL or runs an unbounded loop is embedded
  by an explicit `crash` / `none` result.

Functions keep their C names.  `time(NULL)` is passed in as an explicit
`now` argument.  DEBUG-build `assert` statements are not embedded except
where a claim's control path reaches one (the unreachable `assert(false)`
arm of `fnode_remove` is embedded as a crash).
-/

/-! ## Error numbers (Linux errno values; the source returns their negations) -/

def ENOENT : Int := 2
def ENXIOerr : Int := 6
def EIOerr : Int := 5
def EBUSY : Int := 16
def ENODEV : Int := 19
def EINVAL : Int := 22
def ENOSPC : Int := 28
def ENOTEMPTY : Int := 39

/-! ## Mode bits (sys/stat.h) -/

def S_IFMT : Nat := 0o170000
def S_IFDIR : Nat := 0o040000
def S_IFREG : Nat := 0o100000
def S_IFBLK : Nat := 0o060000

def S_ISDIR (m : Nat) : Bool := m &&& S_IFMT == S_IFDIR

def slashChar : Char := '/'

/-! ## The fuse tree (fuse_tree.c)

`struct fuse_node` fields other than the tree links.  `fops` embeds the
`const struct fuse_node_ops *` pointer as an optional identifier (the tree
code never calls through it on the paths studied here); `data` embeds the
`uintptr_t` client datum. -/

structure NodeData where
  refs : Nat
  fops : Option Nat
  data : Nat
  i_atime : Nat
  i_mtime : Nat
  i_ctime : Nat
  i_mode : Nat
  i_size : Nat
  name : List Char
deriving DecidableEq, Repr

/-- A fuse node: its scalar fields and its children in sibling order. -/
inductive FNode : Type where
  | mk : NodeData → List FNode → FNode
deriving Repr

def FNode.nd : FNode → NodeData
  | .mk d _ => d

def FNode.children : FNode → List FNode
  | .mk _ cs => cs

theorem FNode.nd_mk (d : NodeData) (cs : List FNode) : (FNode.mk d cs).nd = d := rfl

theorem FNode.children_mk (d : NodeData) (cs : List FNode) :
    (FNode.mk d cs).children = cs := rfl

mutual

def fnodeBeq : FNode → FNode → Bool
  | .mk d cs, .mk e ds => d == e && fnodeBeqList cs ds

def fnodeBeqList : List FNode → List FNode → Bool
  | [], [] => true
  | _ :: _, [] => false
  | [], _ :: _ => false
  | a :: as, b :: bs => fnodeBeq a b && fnodeBeqList as bs

end

mutual

theorem fnodeBeq_iff : ∀ a b : FNode, fnodeBeq a b = true ↔ a = b
  | .mk d cs, .mk e ds => by
    simp only [fnodeBeq, Bool.and_eq_true, beq_iff_eq, fnodeBeqList_iff cs ds,
      FNode.mk.injEq]

theorem fnodeBeqList_iff : ∀ as bs : List FNode, fnodeBeqList as bs = true ↔ as = bs
  | [], [] => by simp [fnodeBeqList]
  | _ :: _, [] => by simp [fnodeBeqList]
  | [], _ :: _ => by simp [fnodeBeqList]
  | a :: as, b :: bs => by
    simp only [fnodeBeqList, Bool.and_eq_true, fnodeBeq_iff a b,
      fnodeBeqList_iff as bs, List.cons.injEq]

end

instance : DecidableEq FNode := fun a b => decidable_of_iff _ (fnodeBeq_iff a b)

/-- Structural induction over the nested tree type, giving the inductive
hypothesis at every child. -/
theorem FNode.indOn (P : FNode → Prop)
    (step : ∀ d cs, (∀ c, c ∈ cs → P c) → P (FNode.mk d cs)) : ∀ t, P t
  | FNode.mk d cs => step d cs (fun c hc =>
      have : sizeOf c < sizeOf (FNode.mk d cs) := by
        have h := List.sizeOf_lt_of_mem hc
        simp only [FNode.mk.sizeOf_spec]
        omega
      FNode.indOn P step c)
termination_by t => sizeOf t

/-! ### Path lookup (fnode_lookup)

`fnode_lookup` first skips leading slash characters; an exhausted path names
the subtree root itself.  Otherwise it scans the children in sibling order.
For each child it compares the child's name against the path with the inner
`for` loop of the C source; the comparison either fails, consumes the whole
remaining path (the child is the result), or stops at a `/` boundary (the
search descends into that child with the rest of the path, with no
backtracking to later siblings). -/

def stripSlashes : List Char → List Char
  | [] => []
  | c :: r => if c = slashChar then stripSlashes r else c :: r

/-- The inner name/path comparison loop of `fnode_lookup`: `none` is a
mismatch, `some rest` a match of the whole name against a leading segment of
the path, with `rest` the remaining path (empty, or starting with a slash). -/
def matchName : List Char → List Char → Option (List Char)
  | [], [] => some []
  | [], c :: r => if c = slashChar then some (c :: r) else none
  | _ :: _, [] => none
  | n :: ns, c :: r => if n = c then matchName ns r else none

mutual

def fnode_lookup : FNode → List Char → Option FNode
  | FNode.mk d cs, path =>
    match stripSlashes path with
    | [] => some (FNode.mk d cs)
    | c :: r => lookupChildren cs (c :: r)

def lookupChildren : List FNode → List Char → Option FNode
  | [], _ => none
  | c :: rest, p =>
    match matchName c.nd.name p with
    | some [] => some c
    | some (x :: r) => fnode_lookup c (x :: r)
    | none => lookupChildren rest p

end

/-! ### Tree construction and removal -/

/-- Embeds `_fnode_create` (allocation assumed to succeed): `sys_zalloc`
zeroes `refs` and `i_size`; name, fops, data, mode and the three timestamps
are then filled in. -/
def _fnode_create (name : List Char) (mode : Nat) (fops : Option Nat) (data : Nat)
    (now : Nat) : FNode :=
  FNode.mk
    { refs := 0, fops := fops, data := data, i_atime := now, i_mtime := now,
      i_ctime := now, i_mode := mode, i_size := 0, name := name } []

/-- Embeds `fnode_add`: holds the child, overwrites its mode, links it as the
first child of the parent, increments the parent's `i_size` and refreshes the
parent's mtime.  Returns the updated parent subtree. -/
def fnode_add (fnode : FNode) (parent : FNode) (mode : Nat) (now : Nat) : FNode :=
  match fnode, parent with
  | FNode.mk fd fcs, FNode.mk pd pcs =>
    FNode.mk { pd with i_size := pd.i_size + 1, i_mtime := now }
      (FNode.mk { fd with refs := fd.refs + 1, i_mode := mode } fcs :: pcs)

/-- Embeds `fuse_node_add` (parent given explicitly): a missing type bit
defaults the mode to regular; if `fnode_lookup(parent, name)` finds anything
the call fails returning NULL (`none`), otherwise the created node is linked.
The updated parent subtree is returned on success. -/
def fuse_node_add (name : List Char) (parent : FNode) (mode : Nat)
    (fops : Option Nat) (data : Nat) (now : Nat) : Option FNode :=
  let mode' := if mode &&& S_IFMT == 0 then mode ||| S_IFREG else mode
  if (fnode_lookup parent name).isSome then none
  else some (fnode_add (_fnode_create name mode' fops data now) parent mode' now)

/-- Embeds `fuse_tree_mkdir`. -/
def fuse_tree_mkdir (name : List Char) (parent : FNode) (now : Nat) : Option FNode :=
  fuse_node_add name parent (S_IFDIR ||| 0o555) none 0 now

/-- Removes the first child that is the very node `fnode` (the C code scans
the sibling list comparing node pointers). -/
def removeFirst (cs : List FNode) (fnode : FNode) : Option (List FNode) :=
  match cs with
  | [] => none
  | c :: rest =>
    if c = fnode then some rest else (removeFirst rest fnode).map (fun l => c :: l)

/-- Embeds `fnode_remove`: a node held by someone else is busy; otherwise the
node is unlinked from the parent's child list, the parent's `i_size` is
decremented and its mtime refreshed, and the node is dropped (freed, since
its hold count was 1).  The `none` result embeds the `assert(false)` abort
reached when the node is not among the parent's children (DEBUG build). -/
def fnode_remove (fnode : FNode) (parent : FNode) (now : Nat) : Option (Int × FNode) :=
  if fnode.nd.refs > 1 then some (-EBUSY, parent)
  else
    match removeFirst parent.children fnode with
    | some cs =>
      some (0, FNode.mk { parent.nd with i_size := parent.nd.i_size - 1, i_mtime := now } cs)
    | none => none

/-- Embeds `fuse_node_remove` (parent given explicitly).  The source does not
test the result of `fnode_lookup` against NULL before dereferencing
`fnode->child`; a lookup miss is therefore a NULL-pointer dereference,
embedded as the `none` (crash) result. -/
def fuse_node_remove (name : List Char) (parent : FNode) (now : Nat) :
    Option (Int × FNode) :=
  match fnode_lookup parent name with
  | none => none
  | some fnode =>
    if fnode.children.isEmpty then fnode_remove fnode parent now
    else some (-ENOTEMPTY, parent)

/-- Embeds `fuse_node_update_mode`:
`fnode->i_mode = (fnode->i_mode & ~0777u) | (mode & 0777u)` where the
complement is taken at width 32 (`mode_t`), so `~0777u = 4294966784`. -/
def fuse_node_update_mode (fnode : FNode) (mode : Nat) : FNode :=
  FNode.mk { fnode.nd with i_mode := (fnode.nd.i_mode &&& 4294966784) ||| (mode &&& 511) }
    fnode.children

/-! ### Tree predicates -/

mutual

/-- Every directory node's `i_size` equals its number of direct children. -/
def sizeInvB : FNode → Bool
  | FNode.mk d cs => (!S_ISDIR d.i_mode || d.i_size == cs.length) && sizeInvListB cs

def sizeInvListB : List FNode → Bool
  | [] => true
  | c :: rest => sizeInvB c && sizeInvListB rest

end

mutual

/-- Every node name in the tree is free of the path separator, the invariant
asserted by `fnode_check` and `_fnode_create`. -/
def namesOkB : FNode → Bool
  | FNode.mk d cs => d.name.all (fun c => !(c == slashChar)) && namesOkListB cs

def namesOkListB : List FNode → Bool
  | [] => true
  | c :: rest => namesOkB c && namesOkListB rest

end

/-! ## libtcmur (libtcmur.c): handler registry and device table

`struct tcmur_handler`: the function pointers are embedded as presence
flags, `hid` models the address of the handler struct (handler pointers are
compared with `==` in the source). -/

structure TcmurHandler where
  hid : Nat
  subtype : String
  has_check_config : Bool
  has_open : Bool
  has_close : Bool
  has_read : Bool
  has_write : Bool
  has_flush : Bool
  nr_threads : Nat
deriving DecidableEq, Repr

/-- Embeds `struct tcmu_device`.  `rhandler` holds the handler the device's
`rhandler` pointer refers to. -/
structure TcmuDevice where
  num_lbas : Nat
  block_size : Nat
  max_xfer_len : Nat
  dev_name : String
  rhandler : TcmurHandler
  has_workq : Bool
  nsubmit : Nat
  ncomplete : Nat
deriving DecidableEq, Repr

/-- The slot-indexed device table `the_tcmu_devices` (NULL slots are `none`). -/
abbrev DevTable : Type := List (Option TcmuDevice)

/-- The slot-indexed handler registry `the_tcmu_handlers`. -/
abbrev Registry : Type := List (Option TcmurHandler)

/-- Embeds the `device_of_minor` macro: index if in range, else NULL. -/
def device_of_minor (devs : DevTable) (minor : Nat) : Option TcmuDevice :=
  if minor < devs.length then devs.getD minor none else none

/-- Reinterpretation of a `uint64` bit pattern as a signed `off_t` (the
C casts `(off_t)dev_size` and `(off_t)nbyte`). -/
def toInt64 (n : Nat) : Int :=
  if n % 2 ^ 64 < 2 ^ 63 then (n % 2 ^ 64 : Nat) else (n % 2 ^ 64 : Nat) - 2 ^ 64

/-- Result of running a C function that may crash. -/
inductive CResult (α : Type) : Type where
  | crash : CResult α
  | ok : α → CResult α
deriving DecidableEq, Repr

/-- Embeds `tcmur_read` up to the submission (which always returns 0).  The
source computes `dev_size = dev->num_lbas * dev->block_size` in the
declaration, before the `!dev` test; with no device bound at the minor this
dereferences NULL, embedded as `crash`.  The subsequent dead `!dev` test and
the pre-checks follow the source order.  On the submit path the source binds
the iovec into the task and dispatches (inline or onto the work queue) and
returns 0. -/
def tcmur_read (devs : DevTable) (minor : Nat) (nbyte : Nat) (seekpos : Int) :
    CResult Int :=
  match device_of_minor devs minor with
  | none => CResult.crash
  | some dev =>
    let dev_size : Nat := dev.num_lbas * dev.block_size % 2 ^ 64
    if !dev.rhandler.has_read then CResult.ok (-ENXIOerr)
    else if seekpos + toInt64 nbyte < seekpos then CResult.ok (-EINVAL)
    else if toInt64 dev_size ≤ seekpos then CResult.ok (-EINVAL)
    else if toInt64 dev_size < seekpos + toInt64 nbyte then CResult.ok (-EINVAL)
    else CResult.ok 0

/-- Embeds `tcmur_write`; identical control flow with the `write` handler
entry. -/
def tcmur_write (devs : DevTable) (minor : Nat) (nbyte : Nat) (seekpos : Int) :
    CResult Int :=
  match device_of_minor devs minor with
  | none => CResult.crash
  | some dev =>
    let dev_size : Nat := dev.num_lbas * dev.block_size % 2 ^ 64
    if !dev.rhandler.has_write then CResult.ok (-ENXIOerr)
    else if seekpos + toInt64 nbyte < seekpos then CResult.ok (-EINVAL)
    else if toInt64 dev_size ≤ seekpos then CResult.ok (-EINVAL)
    else if toInt64 dev_size < seekpos + toInt64 nbyte then CResult.ok (-EINVAL)
    else CResult.ok 0

/-- Outcome of `tcmur_flush`: an error return, the `return 0` taken when the
handler has no flush entry (the completion callback `cmd->done` is never
invoked on this path), or a dispatch to the handler (return 0 with a
completion to follow from the handler/worker). -/
inductive FlushResult : Type where
  | retErr : Int → FlushResult
  | noflushOk : FlushResult
  | dispatched : FlushResult
deriving DecidableEq, Repr

/-- Embeds `tcmur_flush` (both copies in the source agree on this control
flow): no device is `-ENODEV`; a handler without flush returns 0 at once
without touching the command; otherwise the flush is dispatched. -/
def tcmur_flush (devs : DevTable) (minor : Nat) : FlushResult :=
  match device_of_minor devs minor with
  | none => FlushResult.retErr (-ENODEV)
  | some dev =>
    if !dev.rhandler.has_flush then FlushResult.noflushOk
    else FlushResult.dispatched

/-- Embeds the bridge fsync `dev_sync` + `io_wait` (fuse_tcmur.c).  The op's
single-shot completion starts unsignalled; `io_wait` blocks until `io_done`
is invoked through `cmd->done` and then maps `TCMU_STS_OK` to 0 and any
other status to `-EIO`.  `backendSts` abstracts the status the backend's
eventual completion delivers on the dispatched path (`none` if it never
completes).  A `none` result is a caller blocked forever. -/
def dev_sync (devs : DevTable) (minor : Nat) (backendSts : Option Int) : Option Int :=
  match tcmur_flush devs minor with
  | FlushResult.retErr e => some e
  | FlushResult.noflushOk => none
  | FlushResult.dispatched =>
    match backendSts with
    | some sts => some (if sts = 0 then 0 else -EIOerr)
    | none => none

/-- Embeds the scan loop of `minor_of_devname`. -/
def minorScan : List (Option TcmuDevice) → String → Option Nat
  | [], _ => none
  | none :: rest, s => (minorScan rest s).map (fun m => m + 1)
  | some d :: rest, s =>
    if d.dev_name == s then some 0 else (minorScan rest s).map (fun m => m + 1)

/-- Embeds `minor_of_devname`: first minor whose bound device has the name,
else `-ENOENT`. -/
def minor_of_devname (devs : DevTable) (devname : String) : Int :=
  match minorScan devs devname with
  | some m => (m : Int)
  | none => -ENOENT

/-- Embeds `tcmur_open`: returns the minor.  The source does not record the
hold (`XXXXX need to hold the device`), so the table is unchanged. -/
def tcmur_open (devs : DevTable) (devname : String) : Int :=
  minor_of_devname devs devname

/-- Embeds `tcmur_device_remove`: unknown minor is `-ENODEV`; otherwise the
slot is cleared, the handler's `close` is called and the device freed.  The
source checks nothing else (`XXXXX need to -EBUSY if any holds`). -/
def tcmur_device_remove (devs : DevTable) (minor : Nat) : Int × DevTable :=
  match device_of_minor devs minor with
  | none => (-ENODEV, devs)
  | some _ => (0, List.set devs minor none)

/-- Embeds the scan of `tcmur_find_handler_slot`: the first slot holding a
handler of the given subtype, together with its index. -/
def tcmur_find_handler_slot : Registry → String → Option (TcmurHandler × Nat)
  | [], _ => none
  | none :: rest, s => (tcmur_find_handler_slot rest s).map (fun p => (p.1, p.2 + 1))
  | some h :: rest, s =>
    if h.subtype == s then some (h, 0)
    else (tcmur_find_handler_slot rest s).map (fun p => (p.1, p.2 + 1))

/-- Embeds `tcmur_unregister_handler`: clears the first slot whose stored
pointer is the given handler (pointer identity = `hid`); returns whether a
slot was found together with the updated registry. -/
def tcmur_unregister_handler : Registry → TcmurHandler → Bool × Registry
  | [], _ => (false, [])
  | none :: rest, h =>
    let p := tcmur_unregister_handler rest h
    (p.1, none :: p.2)
  | some g :: rest, h =>
    if g.hid == h.hid then (true, none :: rest)
    else
      let p := tcmur_unregister_handler rest h
      (p.1, some g :: p.2)

/-- The device scan of `tcmur_handler_unload`: some bound device's
`rhandler` pointer equals the handler. -/
def handlerDevsBusy (devs : DevTable) (h : TcmurHandler) : Bool :=
  devs.any (fun od =>
    match od with
    | some d => d.rhandler.hid == h.hid
    | none => false)

/-- Embeds `tcmur_handler_unload`: `-ENOENT` if the subtype is not
registered; `-EBUSY` (registry untouched) if any device binds the handler;
otherwise the handler is unregistered. -/
def tcmur_handler_unload (devs : DevTable) (hs : Registry) (subtype : String) :
    Int × Registry :=
  match tcmur_find_handler_slot hs subtype with
  | none => (-ENOENT, hs)
  | some (h, _) =>
    if handlerDevsBusy devs h then (-EBUSY, hs)
    else (0, (tcmur_unregister_handler hs h).2)

/-- The pointer identities stored in the registry. -/
def hids (hs : Registry) : List Nat :=
  hs.filterMap (fun o => o.map TcmurHandler.hid)

/-! ## The control channel write loop (fuse_tcmur_ctl.c)

`ctl_write` interprets the written buffer line by line.  Each iteration
copies the current line (`copyline`), dispatches on the command keyword
(`str_match` down the `help` / `add` / `remove` / `load` / `unload` /
`source` / `exit` / `echo` / `dump` chain), runs the command body, and
advances `line`/`size` past the next newline.  Every command body is
terminating straight-line code except `source`, which stats a file, rejects
it above `MAX_SOURCE` bytes, reads it and re-enters `ctl_write` recursively
on the file bytes.  The advance makes no progress when the current byte is
NUL: both advance loops stop at `*line == '\0'` while `size` stays
positive.

The loop is embedded with the remaining buffer as state, the dispatch chain
reduced to the one question that affects control flow -- does the line
reach the `source` arm, and on which argument -- a function from file names
to file bytes standing for the file system, and a fuel bound standing for
non-termination: a call that never returns is one whose run is `false` at
every fuel. -/

def nulChar : Char := Char.ofNat 0

def nlChar : Char := Char.ofNat 10

/-- ASCII `isblank`: space or horizontal tab. -/
def isBlankCh (c : Char) : Bool := c.toNat == 32 || c.toNat == 9

/-- ASCII `isprint`. -/
def isPrintCh (c : Char) : Bool := 32 ≤ c.toNat && c.toNat ≤ 126

/-- ASCII `isalnum`. -/
def isAlnumCh (c : Char) : Bool :=
  (48 ≤ c.toNat && c.toNat ≤ 57) || (65 ≤ c.toNat && c.toNat ≤ 90) ||
    (97 ≤ c.toNat && c.toNat ≤ 122)

/-- ASCII `tolower`. -/
def toLowerCh (c : Char) : Char :=
  if 65 ≤ c.toNat && c.toNat ≤ 90 then Char.ofNat (c.toNat + 32) else c

/-- Embeds `copyline`: skip leading blanks, take the printable prefix up to
a `#`, and strip the trailing blanks (the `q` pointer tracks the position
after the last non-blank).  The scan stops at any non-printable byte, NUL
and newline included. -/
def copyline (l : List Char) : List Char :=
  (((l.dropWhile isBlankCh).takeWhile
      (fun c => isPrintCh c && !(c == '#'))).reverse.dropWhile isBlankCh).reverse

/-- The scan loop of `str_match` over the alphanumeric run of the line:
comparing past the end of the keyword fails (the keyword's terminating NUL
never equals an alphanumeric character). -/
def strMatchAux : List Char → List Char → Bool
  | [], _ => true
  | c :: r, pat =>
    if isAlnumCh c then
      match pat with
      | [] => false
      | pc :: pr => if toLowerCh c = pc then strMatchAux r pr else false
    else true

/-- Embeds `str_match`: a non-empty alphanumeric prefix of the line that is
a case-insensitive initial substring of the lower-case command keyword. -/
def str_match (s pat : List Char) : Bool :=
  match s with
  | [] => false
  | c :: _ => isAlnumCh c && strMatchAux s pat

/-- Embeds `nextfield`: skip the rest of the current field, then the blanks
before the next one. -/
def nextfield (s : List Char) : List Char :=
  (s.dropWhile (fun c => !(c == nulChar) && !isBlankCh c)).dropWhile isBlankCh

/-- The command dispatch chain of `ctl_write`, reduced to the branch that
affects control flow: the line reaches the `source` arm exactly when it
fails the `help`, `add`, `remove`, `load` and `unload` matches and passes
the `source` match.  (All other arms, the empty line and the unknown-line
reply are terminating and touch only the registry, device table, tree and
stderr.) -/
def lineSourcesFile (line : List Char) : Bool :=
  !str_match line ['h', 'e', 'l', 'p'] &&
  !str_match line ['a', 'd', 'd'] &&
  !str_match line ['r', 'e', 'm', 'o', 'v', 'e'] &&
  !str_match line ['l', 'o', 'a', 'd'] &&
  !str_match line ['u', 'n', 'l', 'o', 'a', 'd'] &&
  str_match line ['s', 'o', 'u', 'r', 'c', 'e']

def MAX_SOURCE : Nat := 4096

/-- The first advance loop: skip to the next NUL or newline (or the end). -/
def skipToEol : List Char → List Char
  | [] => []
  | c :: r => if c = nulChar ∨ c = nlChar then c :: r else skipToEol r

/-- Both advance loops: skip to the next NUL or newline, then step over a
newline. -/
def nextLine (l : List Char) : List Char :=
  match skipToEol l with
  | [] => []
  | c :: r => if c = nlChar then r else c :: r

/-- The `while (size)` loop of `ctl_write` over the remaining buffer.  `fs`
maps a file name to its byte content (`none` embeds a failing
`stat`/`open`).  A `source` line whose file passes the size cap and reads
at least one byte re-enters the write on the file bytes (its return value
is discarded, but the caller waits for it); every other line's body
terminates.  The result is `true` when the call returns and `false` when
the fuel ran out first. -/
def ctl_run (fs : List Char → Option (List Char)) : Nat → List Char → Bool
  | _, [] => true
  | 0, _ :: _ => false
  | f + 1, c :: r =>
    (if lineSourcesFile (copyline (c :: r)) then
      match fs (nextfield (copyline (c :: r))) with
      | none => true
      | some content =>
        if MAX_SOURCE < content.length then true
        else if content.length == 0 then true
        else ctl_run fs f content
    else true) &&
    ctl_run fs f (nextLine (c :: r))

/-- A file system where the file `/f` holds a single NUL byte. -/
def fsNul : List Char → Option (List Char) :=
  fun name => if name = ['/', 'f'] then some [nulChar] else none

/-- A NUL-free write buffer whose single line dispatches to `source /f`
(`s` is a valid initial-substring match of `source`). -/
def srcBuf : List Char := ['s', ' ', '/', 'f', nlChar]

/-! ## Sample states used by witnesses and counterexamples -/

/-- A ram handler with read and write entries but no flush entry. -/
def hRam : TcmurHandler :=
  { hid := 1, subtype := "ram", has_check_config := false, has_open := true,
    has_close := true, has_read := true, has_write := true, has_flush := false,
    nr_threads := 0 }

/-- A device bound to `hRam` with the default geometry. -/
def devRam : TcmuDevice :=
  { num_lbas := 262144, block_size := 4096, max_xfer_len := 1048576,
    dev_name := "ram000", rhandler := hRam, has_workq := false,
    nsubmit := 0, ncomplete := 0 }

/-- A device table with `devRam` bound at minor 0. -/
def devs1 : DevTable := [some devRam]

/-- A childless directory root node. -/
def rootOnly : FNode :=
  FNode.mk
    { refs := 1, fops := none, data := 0, i_atime := 0, i_mtime := 0, i_ctime := 0,
      i_mode := S_IFDIR ||| 0o555, i_size := 0, name := ['r'] } []

/-- A directory node named `a` with no children. -/
def dirA : FNode :=
  FNode.mk
    { refs := 1, fops := none, data := 0, i_atime := 0, i_mtime := 0, i_ctime := 0,
      i_mode := S_IFDIR ||| 0o555, i_size := 0, name := ['a'] } []

/-- A root directory whose only child is the directory `a`. -/
def rootWithDirA : FNode :=
  FNode.mk
    { refs := 1, fops := none, data := 0, i_atime := 0, i_mtime := 0, i_ctime := 0,
      i_mode := S_IFDIR ||| 0o555, i_size := 1, name := ['r'] } [dirA]

/-- A block-device node as created by the `add` control command. -/
def nodeBlk : FNode :=
  FNode.mk
    { refs := 1, fops := some 1, data := 0, i_atime := 11, i_mtime := 12, i_ctime := 13,
      i_mode := S_IFBLK ||| 0o664, i_size := 1073741824, name := ['r', 'a', 'm', '0', '0', '0'] } []

/-! ## C1: read/write on an unbound minor -/

/-- C1: with no device bound at the minor, `tcmur_read` does not perform its
pre-checks and return `-ENODEV`; it dereferences the NULL device pointer
while computing `dev_size` (before the `!dev` test) and crashes, and so does
`tcmur_write`.  No backend function is invoked, but neither is `-ENODEV`
returned, refuting the claimed error return. -/
theorem C1_read_write_unbound_minor_crashes (devs : DevTable) (minor : Nat)
    (nbyte : Nat) (seekpos : Int) (h : device_of_minor devs minor = none) :
    tcmur_read devs minor nbyte seekpos = CResult.crash ∧
    tcmur_write devs minor nbyte seekpos = CResult.crash ∧
    tcmur_read devs minor nbyte seekpos ≠ CResult.ok (-ENODEV) := by
  refine ⟨?_, ?_, ?_⟩ <;> simp [tcmur_read, tcmur_write, h]

/-- Witness for C1 at the empty device table and minor 0. -/
theorem C1_witness :
    device_of_minor [] 0 = none ∧
    tcmur_read [] 0 4096 0 = CResult.crash ∧
    tcmur_write [] 0 4096 0 = CResult.crash := by
  have h := C1_read_write_unbound_minor_crashes [] 0 4096 0 (by decide)
  exact ⟨by decide, h.1, h.2.1⟩

/-! ## C2: node_remove of a missing name -/

/-- C2: when no node of the given name is found under the parent,
`fuse_node_remove` does not return the not-found error: the source
dereferences the NULL result of `fnode_lookup` (`fnode->child`) and
crashes. -/
theorem C2_remove_missing_child_crashes (name : List Char) (parent : FNode)
    (now : Nat) (h : fnode_lookup parent name = none) :
    fuse_node_remove name parent now = none := by
  simp [fuse_node_remove, h]

/-- Witness for C2: removing the name `x` under a childless root crashes. -/
theorem C2_witness :
    fnode_lookup rootOnly ['x'] = none ∧
    fuse_node_remove ['x'] rootOnly 7 = none :=
  ⟨by decide, C2_remove_missing_child_crashes ['x'] rootOnly 7 (by decide)⟩

/-! ## C3: flush on a backend without a flush entry -/

/-- C3: when the bound handler has no flush entry, `tcmur_flush` returns 0
without ever invoking the command's completion callback, so the
bridge-initiated `dev_sync` blocks forever inside `io_wait` instead of
returning 0, whatever completion status the backend could deliver. -/
theorem C3_flush_without_entry_never_completes (devs : DevTable) (minor : Nat)
    (dev : TcmuDevice) (bsts : Option Int)
    (h1 : device_of_minor devs minor = some dev)
    (h2 : dev.rhandler.has_flush = false) :
    tcmur_flush devs minor = FlushResult.noflushOk ∧
    dev_sync devs minor bsts = none := by
  constructor
  · simp [tcmur_flush, h1, h2]
  · simp [dev_sync, tcmur_flush, h1, h2]

/-- Witness for C3 at the table binding `devRam` (whose handler has no
flush entry) at minor 0. -/
theorem C3_witness :
    tcmur_flush devs1 0 = FlushResult.noflushOk ∧ dev_sync devs1 0 (some 0) = none :=
  C3_flush_without_entry_never_completes devs1 0 devRam (some 0) (by decide) (by decide)

/-! ## C4: device_remove with outstanding opens -/

/-- C4: `tcmur_open` records no hold and `tcmur_device_remove` checks none:
even with an outstanding open of the device (an earlier `tcmur_open` that
returned this minor, never closed), removing a bound minor returns 0 and
clears the binding from the table, rather than failing with `-EBUSY` and
keeping the binding. -/
theorem C4_device_remove_ignores_outstanding_opens (devs : DevTable) (minor : Nat)
    (dev : TcmuDevice) (devname : String)
    (hdev : device_of_minor devs minor = some dev)
    (_hopen : tcmur_open devs devname = (minor : Int)) :
    (tcmur_device_remove devs minor).1 = 0 ∧
    device_of_minor (tcmur_device_remove devs minor).2 minor = none := by
  have hlt : minor < devs.length := by
    by_contra hge
    simp [device_of_minor, hge] at hdev
  constructor
  · simp [tcmur_device_remove, hdev]
  · simp only [tcmur_device_remove, hdev]
    simp [device_of_minor, List.length_set, hlt, List.getD_eq_getElem?_getD,
      List.getElem?_set_self]

/-- Witness for C4: `devRam` is bound at minor 0 and opened by name; removal
nevertheless succeeds and unbinds it. -/
theorem C4_witness :
    (tcmur_device_remove devs1 0).1 = 0 ∧
    device_of_minor (tcmur_device_remove devs1 0).2 0 = none :=
  C4_device_remove_ignores_outstanding_opens devs1 0 devRam "ram000" (by decide) (by decide)

/-! ## C5: node_add over an existing name -/

/-- C5 counterexample: under a root holding the directory `a`, adding a
directory named `a` does not return the existing node; `fuse_node_add`
fails (returns NULL) although both the existing and the requested kind are
directories. -/
theorem C5_counterexample :
    S_ISDIR dirA.nd.i_mode = true ∧
    S_ISDIR (S_IFDIR ||| 0o555) = true ∧
    fuse_node_add ['a'] rootWithDirA (S_IFDIR ||| 0o555) none 0 3 = none := by
  refine ⟨by decide, by decide, by decide⟩

/-- C5 amended: whenever a node of the given name already exists under the
parent, `fuse_node_add` fails (returns NULL) regardless of the kinds of the
existing and requested nodes. -/
theorem C5_add_existing_name_fails (name : List Char) (parent : FNode) (mode : Nat)
    (fops : Option Nat) (data : Nat) (now : Nat)
    (h : (fnode_lookup parent name).isSome = true) :
    fuse_node_add name parent mode fops data now = none := by
  simp [fuse_node_add, h]

/-- Witness for the amended C5 at the directory/directory instance. -/
theorem C5_witness :
    fuse_node_add ['a'] rootWithDirA (S_IFDIR ||| 0o555) none 0 3 = none :=
  C5_add_existing_name_fails ['a'] rootWithDirA (S_IFDIR ||| 0o555) none 0 3 (by decide)

/-! ## C10: fuse_node_update_mode frame property -/

/-- Bits 9 to 31 of the 32-bit complement of `0777`. -/
theorem maskHiBit (k : Nat) (h1 : 9 ≤ k) (h2 : k < 32) :
    Nat.testBit 4294966784 k = true := by
  interval_cases k <;> decide

/-- Bits 0 to 8 of the 32-bit complement of `0777`. -/
theorem maskLoBit (k : Nat) (h : k < 9) : Nat.testBit 4294966784 k = false := by
  interval_cases k <;> decide

/-- Bits 32 and above of the 32-bit complement of `0777`. -/
theorem maskGeBit (k : Nat) (h : 32 ≤ k) : Nat.testBit 4294966784 k = false := by
  have h1 : (4294966784 : Nat) < 2 ^ 32 := by norm_num
  have h2 : (2 : Nat) ^ 32 ≤ 2 ^ k := Nat.pow_le_pow_right (by norm_num) h
  exact Nat.testBit_eq_false_of_lt (lt_of_lt_of_le h1 h2)

/-- Bits 0 to 8 of `0777`. -/
theorem permLoBit (k : Nat) (h : k < 9) : Nat.testBit 511 k = true := by
  interval_cases k <;> decide

/-- Bits 9 and above of `0777`. -/
theorem permHiBit (k : Nat) (h : 9 ≤ k) : Nat.testBit 511 k = false := by
  have h1 : (511 : Nat) < 2 ^ 9 := by norm_num
  have h2 : (2 : Nat) ^ 9 ≤ 2 ^ k := Nat.pow_le_pow_right (by norm_num) h
  exact Nat.testBit_eq_false_of_lt (lt_of_lt_of_le h1 h2)

/-- C10: `fuse_node_update_mode` writes the low nine bits of the argument
into the node's mode, keeps mode bits 9 to 31 (the file-type bits
`S_IFMT` among them), and changes no other field of the node. -/
theorem C10_update_mode_frame (fnode : FNode) (mode : Nat) :
    (∀ k, k < 9 →
      (fuse_node_update_mode fnode mode).nd.i_mode.testBit k = mode.testBit k) ∧
    (∀ k, 9 ≤ k → k < 32 →
      (fuse_node_update_mode fnode mode).nd.i_mode.testBit k
        = fnode.nd.i_mode.testBit k) ∧
    (fuse_node_update_mode fnode mode).nd.i_mode &&& S_IFMT
      = fnode.nd.i_mode &&& S_IFMT ∧
    (fuse_node_update_mode fnode mode).nd.refs = fnode.nd.refs ∧
    (fuse_node_update_mode fnode mode).nd.fops = fnode.nd.fops ∧
    (fuse_node_update_mode fnode mode).nd.data = fnode.nd.data ∧
    (fuse_node_update_mode fnode mode).nd.i_atime = fnode.nd.i_atime ∧
    (fuse_node_update_mode fnode mode).nd.i_mtime = fnode.nd.i_mtime ∧
    (fuse_node_update_mode fnode mode).nd.i_ctime = fnode.nd.i_ctime ∧
    (fuse_node_update_mode fnode mode).nd.i_size = fnode.nd.i_size ∧
    (fuse_node_update_mode fnode mode).nd.name = fnode.nd.name ∧
    (fuse_node_update_mode fnode mode).children = fnode.children := by
  refine ⟨?_, ?_, ?_, rfl, rfl, rfl, rfl, rfl, rfl, rfl, rfl, rfl⟩
  · intro k hk
    simp only [fuse_node_update_mode, FNode.nd_mk, Nat.testBit_lor, Nat.testBit_land,
      maskLoBit k hk, permLoBit k hk, Bool.and_false, Bool.and_true, Bool.false_or]
  · intro k hk9 hk32
    simp only [fuse_node_update_mode, FNode.nd_mk, Nat.testBit_lor, Nat.testBit_land,
      maskHiBit k hk9 hk32, permHiBit k hk9, Bool.and_false, Bool.and_true,
      Bool.or_false]
  · refine Nat.eq_of_testBit_eq (fun k => ?_)
    by_cases h32 : k < 32
    · by_cases h9 : 9 ≤ k
      · simp only [fuse_node_update_mode, FNode.nd_mk, Nat.testBit_lor,
          Nat.testBit_land, maskHiBit k h9 h32, permHiBit k h9, Bool.and_false,
          Bool.and_true, Bool.or_false]
      · have hk9 : k < 9 := by omega
        have hifmt : Nat.testBit S_IFMT k = false := by
          have : k < 12 := by omega
          unfold S_IFMT
          interval_cases k <;> decide
        simp only [Nat.testBit_land, hifmt, Bool.and_false]
    · have hge : 32 ≤ k := by omega
      have hifmt : Nat.testBit S_IFMT k = false := by
        have h1 : S_IFMT < 2 ^ 32 := by norm_num [S_IFMT]
        have h2 : (2 : Nat) ^ 32 ≤ 2 ^ k := Nat.pow_le_pow_right (by norm_num) hge
        exact Nat.testBit_eq_false_of_lt (lt_of_lt_of_le h1 h2)
      simp only [Nat.testBit_land, hifmt, Bool.and_false]

/-- Witness for C10 at the block node and mode `0707`: bit 3 comes from the
argument, bit 14 and the file-type field are preserved, the size field is
untouched. -/
theorem C10_witness :
    (fuse_node_update_mode nodeBlk 0o707).nd.i_mode.testBit 3 = Nat.testBit 0o707 3 ∧
    (fuse_node_update_mode nodeBlk 0o707).nd.i_mode.testBit 14
      = nodeBlk.nd.i_mode.testBit 14 ∧
    (fuse_node_update_mode nodeBlk 0o707).nd.i_mode &&& S_IFMT
      = nodeBlk.nd.i_mode &&& S_IFMT ∧
    (fuse_node_update_mode nodeBlk 0o707).nd.i_size = nodeBlk.nd.i_size := by
  have h := C10_update_mode_frame nodeBlk 0o707
  exact ⟨h.1 3 (by decide), h.2.1 14 (by decide) (by decide), h.2.2.1, h.2.2.2.2.2.2.2.2.2.1⟩

/-! ## C8: the control write returns the input length -/

/-- The loop makes no progress on a NUL byte: both advance loops stop there
while `size` stays positive, so no amount of fuel reaches the exit,
whatever the file system holds. -/
theorem ctl_run_nul (fs : List Char → Option (List Char)) :
    ∀ fuel : Nat, ctl_run fs fuel [nulChar] = false := by
  intro fuel
  induction fuel with
  | zero => rfl
  | succ f ih =>
    have hline : lineSourcesFile (copyline [nulChar]) = false := by decide
    have hnext : nextLine [nulChar] = [nulChar] := by decide
    simp only [ctl_run, hline, Bool.false_eq_true, if_false, Bool.true_and, hnext]
    exact ih

/-- A NUL-free buffer can also hang the write: `s /f` dispatches to the
`source` arm, which re-enters the write on the file bytes; a file holding a
NUL byte then spins the nested loop forever, and the outer write never
returns. -/
theorem ctl_run_source_nul_hangs :
    nulChar ∉ srcBuf ∧ ∀ fuel : Nat, ctl_run fsNul fuel srcBuf = false := by
  refine ⟨by decide, ?_⟩
  intro fuel
  cases fuel with
  | zero => rfl
  | succ f =>
    have hbody : ctl_run fsNul (f + 1) srcBuf =
        ((if lineSourcesFile (copyline srcBuf) then
            match fsNul (nextfield (copyline srcBuf)) with
            | none => true
            | some content =>
              if MAX_SOURCE < content.length then true
              else if content.length == 0 then true
              else ctl_run fsNul f content
          else true) && ctl_run fsNul f (nextLine srcBuf)) := rfl
    have hline : lineSourcesFile (copyline srcBuf) = true := by decide
    have harg : fsNul (nextfield (copyline srcBuf)) = some [nulChar] := by decide
    rw [hbody, hline, harg]
    simp [MAX_SOURCE, ctl_run_nul fsNul f]

theorem hids_none_cons (rest : Registry) : hids (none :: rest) = hids rest := by
  simp [hids]

theorem hids_some_cons (g : TcmurHandler) (rest : Registry) :
    hids (some g :: rest) = g.hid :: hids rest := by
  simp [hids]

/-- A found handler's identity occurs in the registry. -/
theorem find_hid_mem : ∀ (hs : Registry) (s : String) (h : TcmurHandler) (i : Nat),
    tcmur_find_handler_slot hs s = some (h, i) → h.hid ∈ hids hs := by
  intro hs
  induction hs with
  | nil => intro s h i hf; simp [tcmur_find_handler_slot] at hf
  | cons o rest ih =>
    intro s h i hf
    cases o with
    | none =>
      rw [hids_none_cons]
      cases hrest : tcmur_find_handler_slot rest s with
      | none => rw [tcmur_find_handler_slot, hrest] at hf; simp at hf
      | some pr =>
        obtain ⟨p1, p2⟩ := pr
        rw [tcmur_find_handler_slot, hrest] at hf
        simp only [Option.map_some', Option.some.injEq, Prod.mk.injEq] at hf
        exact hf.1 ▸ ih s p1 p2 hrest
    | some g =>
      rw [hids_some_cons]
      by_cases hsub : g.subtype == s
      · rw [tcmur_find_handler_slot, if_pos hsub] at hf
        simp only [Option.some.injEq, Prod.mk.injEq] at hf
        rw [← hf.1]
        exact List.mem_cons_self _ _
      · rw [tcmur_find_handler_slot, if_neg hsub] at hf
        cases hrest : tcmur_find_handler_slot rest s with
        | none => rw [hrest] at hf; simp at hf
        | some pr =>
          obtain ⟨p1, p2⟩ := pr
          rw [hrest] at hf
          simp only [Option.map_some', Option.some.injEq, Prod.mk.injEq] at hf
          exact List.mem_cons_of_mem _ (hf.1 ▸ ih s p1 p2 hrest)

/-- With distinct handler identities (distinct heap addresses), unregistering
the handler found at a slot clears exactly that slot. -/
theorem unreg_of_find : ∀ (hs : Registry) (s : String) (h : TcmurHandler) (slot : Nat),
    (hids hs).Nodup → tcmur_find_handler_slot hs s = some (h, slot) →
    (tcmur_unregister_handler hs h).2 = hs.set slot none := by
  intro hs
  induction hs with
  | nil => intro s h slot _ hf; simp [tcmur_find_handler_slot] at hf
  | cons o rest ih =>
    intro s h slot hnodup hf
    cases o with
    | none =>
      rw [hids_none_cons] at hnodup
      cases hrest : tcmur_find_handler_slot rest s with
      | none => rw [tcmur_find_handler_slot, hrest] at hf; simp at hf
      | some pr =>
        obtain ⟨p1, p2⟩ := pr
        rw [tcmur_find_handler_slot, hrest] at hf
        simp only [Option.map_some', Option.some.injEq, Prod.mk.injEq] at hf
        obtain ⟨hh, hslot⟩ := hf
        subst hh
        subst hslot
        rw [tcmur_unregister_handler, List.set_cons_succ]
        rw [ih s p1 p2 hnodup hrest]
    | some g =>
      rw [hids_some_cons] at hnodup
      obtain ⟨hgnot, hnodup'⟩ := List.nodup_cons.mp hnodup
      by_cases hsub : g.subtype == s
      · rw [tcmur_find_handler_slot, if_pos hsub] at hf
        simp only [Option.some.injEq, Prod.mk.injEq] at hf
        obtain ⟨hh, hslot⟩ := hf
        subst hh
        rw [← hslot]
        simp [tcmur_unregister_handler]
      · rw [tcmur_find_handler_slot, if_neg hsub] at hf
        cases hrest : tcmur_find_handler_slot rest s with
        | none => rw [hrest] at hf; simp at hf
        | some pr =>
          obtain ⟨p1, p2⟩ := pr
          rw [hrest] at hf
          simp only [Option.map_some', Option.some.injEq, Prod.mk.injEq] at hf
          obtain ⟨hh, hslot⟩ := hf
          subst hh
          subst hslot
          have hne : (g.hid == p1.hid) = false := by
            refine beq_eq_false_iff_ne.mpr (fun hgh => hgnot ?_)
            exact hgh ▸ find_hid_mem rest s p1 p2 hrest
          rw [tcmur_unregister_handler, List.set_cons_succ]
          simp only [hne, Bool.false_eq_true, if_false]
          rw [ih s p1 p2 hnodup' hrest]

/-- C6: `tcmur_handler_unload` fails with `-ENOENT` when no registered
handler has the subtype; fails with `-EBUSY` leaving the registry unchanged
when some bound device's handler pointer is the found handler; and otherwise
succeeds, clearing exactly the found handler's slot.  The `Nodup` hypothesis
states that registry slots hold distinct handler structs (distinct
addresses), which is how the C registry is populated. -/
theorem C6_handler_unload_spec (devs : DevTable) (hs : Registry) (subtype : String)
    (hnodup : (hids hs).Nodup) :
    (tcmur_find_handler_slot hs subtype = none →
      tcmur_handler_unload devs hs subtype = (-ENOENT, hs)) ∧
    (∀ h slot, tcmur_find_handler_slot hs subtype = some (h, slot) →
      handlerDevsBusy devs h = true →
      tcmur_handler_unload devs hs subtype = (-EBUSY, hs)) ∧
    (∀ h slot, tcmur_find_handler_slot hs subtype = some (h, slot) →
      handlerDevsBusy devs h = false →
      tcmur_handler_unload devs hs subtype = (0, hs.set slot none)) := by
  refine ⟨?_, ?_, ?_⟩
  · intro hf
    simp [tcmur_handler_unload, hf]
  · intro h slot hf hbusy
    simp [tcmur_handler_unload, hf, hbusy]
  · intro h slot hf hbusy
    simp only [tcmur_handler_unload, hf, hbusy, Bool.false_eq_true, if_false]
    rw [unreg_of_find hs subtype h slot hnodup hf]

/-- Witness for C6: a registry holding only the ram handler, no devices;
unload succeeds and clears slot 0. -/
theorem C6_witness :
    tcmur_handler_unload [] [some hRam] "ram" = (0, [none]) :=
  (C6_handler_unload_spec [] [some hRam] "ram" (by decide)).2.2 hRam 0
    (by decide) (by decide)

/-! ## C9: directory i_size tracks the number of direct children -/

theorem sizeInvListB_iff : ∀ cs : List FNode,
    sizeInvListB cs = true ↔ ∀ c ∈ cs, sizeInvB c = true := by
  intro cs
  induction cs with
  | nil => simp [sizeInvListB]
  | cons c rest ih =>
    simp only [sizeInvListB, Bool.and_eq_true, ih, List.mem_cons]
    constructor
    · rintro ⟨h1, h2⟩ x hx
      rcases hx with hx | hx
      · exact hx ▸ h1
      · exact h2 x hx
    · intro hall
      exact ⟨hall c (Or.inl rfl), fun x hx => hall x (Or.inr hx)⟩

theorem sizeInvB_mk (d : NodeData) (cs : List FNode) :
    sizeInvB (FNode.mk d cs) = true ↔
      ((S_ISDIR d.i_mode = true → d.i_size = cs.length) ∧
        ∀ c ∈ cs, sizeInvB c = true) := by
  simp only [sizeInvB, Bool.and_eq_true, Bool.or_eq_true, Bool.not_eq_true',
    beq_iff_eq, sizeInvListB_iff]
  constructor
  · rintro ⟨h1, h2⟩
    refine ⟨fun hd => ?_, h2⟩
    rcases h1 with h1 | h1
    · rw [hd] at h1; cases h1
    · exact h1
  · rintro ⟨h1, h2⟩
    refine ⟨?_, h2⟩
    by_cases hd : S_ISDIR d.i_mode = true
    · exact Or.inr (h1 hd)
    · exact Or.inl (by simpa using hd)

theorem removeFirst_length : ∀ (cs : List FNode) (f : FNode) (cs' : List FNode),
    removeFirst cs f = some cs' → cs.length = cs'.length + 1 := by
  intro cs
  induction cs with
  | nil => intro f cs' h; simp [removeFirst] at h
  | cons c rest ih =>
    intro f cs' h
    by_cases hc : c = f
    · rw [removeFirst, if_pos hc] at h
      simp only [Option.some.injEq] at h
      rw [← h]
      simp
    · rw [removeFirst, if_neg hc] at h
      cases hrest : removeFirst rest f with
      | none => rw [hrest] at h; simp at h
      | some l =>
        rw [hrest] at h
        simp only [Option.map_some', Option.some.injEq] at h
        rw [← h]
        simp only [List.length_cons]
        rw [ih f l hrest]

theorem removeFirst_mem : ∀ (cs : List FNode) (f : FNode) (cs' : List FNode)
    (x : FNode), removeFirst cs f = some cs' → x ∈ cs' → x ∈ cs := by
  intro cs
  induction cs with
  | nil => intro f cs' x h; simp [removeFirst] at h
  | cons c rest ih =>
    intro f cs' x h hx
    by_cases hc : c = f
    · rw [removeFirst, if_pos hc] at h
      simp only [Option.some.injEq] at h
      exact List.mem_cons_of_mem _ (h ▸ hx)
    · rw [removeFirst, if_neg hc] at h
      cases hrest : removeFirst rest f with
      | none => rw [hrest] at h; simp at h
      | some l =>
        rw [hrest] at h
        simp only [Option.map_some', Option.some.injEq] at h
        rw [← h] at hx
        rcases List.mem_cons.mp hx with hx | hx
        · exact hx ▸ List.mem_cons_self _ _
        · exact List.mem_cons_of_mem _ (ih f l x hrest hx)

/-- C9: a freshly created node has `i_size` 0 and no children; a successful
`fuse_node_add` under a parent satisfying the invariant yields a tree that
satisfies it again, with the parent's `i_size` and child count both one
larger; a successful `fuse_node_remove` from a directory parent satisfying
the invariant yields a tree satisfying it again, with the parent's `i_size`
and child count both one smaller. -/
theorem C9_size_tracks_children :
    (∀ name mode fops data now,
      (_fnode_create name mode fops data now).nd.i_size = 0 ∧
      (_fnode_create name mode fops data now).children = []) ∧
    (∀ name parent mode fops data now t', sizeInvB parent = true →
      fuse_node_add name parent mode fops data now = some t' →
      sizeInvB t' = true ∧ t'.nd.i_size = parent.nd.i_size + 1 ∧
        t'.children.length = parent.children.length + 1) ∧
    (∀ name parent now t', sizeInvB parent = true →
      S_ISDIR parent.nd.i_mode = true →
      fuse_node_remove name parent now = some (0, t') →
      sizeInvB t' = true ∧ t'.nd.i_size + 1 = parent.nd.i_size ∧
        t'.children.length + 1 = parent.children.length) := by
  refine ⟨?_, ?_, ?_⟩
  · intro name mode fops data now
    exact ⟨rfl, rfl⟩
  · intro name parent mode fops data now t' hinv hadd
    obtain ⟨pd, pcs⟩ := parent
    rw [fuse_node_add] at hadd
    by_cases hlk : (fnode_lookup (FNode.mk pd pcs) name).isSome
    · rw [if_pos hlk] at hadd
      cases hadd
    · rw [if_neg hlk] at hadd
      simp only [Option.some.injEq] at hadd
      rw [← hadd]
      rw [sizeInvB_mk] at hinv
      obtain ⟨hdir, hkids⟩ := hinv
      refine ⟨?_, rfl, rfl⟩
      simp only [fnode_add, _fnode_create]
      rw [sizeInvB_mk]
      constructor
      · intro hd
        have hsz := hdir hd
        simp only [List.length_cons]
        omega
      · intro c hc
        rcases List.mem_cons.mp hc with hc | hc
        · rw [hc, sizeInvB_mk]
          exact ⟨fun _ => rfl, by simp⟩
        · exact hkids c hc
  · intro name parent now t' hinv hdirp hrem
    obtain ⟨pd, pcs⟩ := parent
    rw [fuse_node_remove] at hrem
    cases hlk : fnode_lookup (FNode.mk pd pcs) name with
    | none => rw [hlk] at hrem; cases hrem
    | some fnode =>
      rw [hlk] at hrem
      have hrem2 : (if fnode.children.isEmpty = true
          then fnode_remove fnode (FNode.mk pd pcs) now
          else some (-ENOTEMPTY, FNode.mk pd pcs)) = some (0, t') := hrem
      clear hrem
      by_cases hemp : fnode.children.isEmpty
      · rw [if_pos hemp, fnode_remove] at hrem2
        by_cases hrefs : fnode.nd.refs > 1
        · rw [if_pos hrefs] at hrem2
          simp only [Option.some.injEq, Prod.mk.injEq] at hrem2
          have : (-EBUSY : Int) = 0 := hrem2.1
          norm_num [EBUSY] at this
        · rw [if_neg hrefs] at hrem2
          cases hrf : removeFirst (FNode.mk pd pcs).children fnode with
          | none => rw [hrf] at hrem2; cases hrem2
          | some cs =>
            rw [hrf] at hrem2
            simp only [Option.some.injEq, Prod.mk.injEq] at hrem2
            rw [sizeInvB_mk] at hinv
            obtain ⟨hdir, hkids⟩ := hinv
            simp only [FNode.children_mk] at hrf
            have hlen : pcs.length = cs.length + 1 := removeFirst_length pcs fnode cs hrf
            have hsz : pd.i_size = pcs.length := hdir hdirp
            rw [← hrem2.2]
            simp only [FNode.nd_mk, FNode.children_mk]
            refine ⟨?_, by omega, by omega⟩
            rw [sizeInvB_mk]
            refine ⟨fun _ => by simp only [List.length_cons] at *; omega, ?_⟩
            intro c hc
            exact hkids c (removeFirst_mem pcs fnode cs c hrf hc)
      · rw [if_neg hemp] at hrem2
        simp only [Option.some.injEq, Prod.mk.injEq] at hrem2
        have : (-ENOTEMPTY : Int) = 0 := hrem2.1
        norm_num [ENOTEMPTY] at this

/-- Witness for C9: adding a directory `b` under the root that already holds
`a` keeps the invariant and bumps the size from 1 to 2. -/
theorem C9_witness :
    sizeInvB rootWithDirA = true ∧
    ∃ t', fuse_node_add ['b'] rootWithDirA (S_IFDIR ||| 0o555) none 0 9 = some t' ∧
      sizeInvB t' = true ∧ t'.nd.i_size = rootWithDirA.nd.i_size + 1 ∧
      t'.children.length = rootWithDirA.children.length + 1 := by
  refine ⟨by decide, ?_⟩
  cases hadd : fuse_node_add ['b'] rootWithDirA (S_IFDIR ||| 0o555) none 0 9 with
  | none => exact absurd hadd (by decide)
  | some t' =>
    refine ⟨t', rfl, ?_⟩
    exact (C9_size_tracks_children.2.1 ['b'] rootWithDirA (S_IFDIR ||| 0o555)
      none 0 9 t' (by decide) hadd)

/-! ## C7: lookup is path-canonical

The specification-side vocabulary: a path denotes a sequence of maximal
slash-free segments (`segs`), `collapse` squeezes runs of repeated slashes
to a single slash, and `lookupSegs` is segment-by-segment descent.
`fnode_lookup` is proved to depend only on `segs` of its path, and `segs`
is invariant under `collapse`, which together give canonicality. -/

/-- The maximal slash-free prefix of a path. -/
def takeSeg : List Char → List Char
  | [] => []
  | c :: r => if c = slashChar then [] else c :: takeSeg r

/-- The rest of a path after its first maximal slash-free prefix. -/
def dropSeg : List Char → List Char
  | [] => []
  | c :: r => if c = slashChar then c :: r else dropSeg r

theorem dropSeg_length_le : ∀ l : List Char, (dropSeg l).length ≤ l.length := by
  intro l
  induction l with
  | nil => simp [dropSeg]
  | cons c r ih =>
    by_cases hc : c = slashChar
    · simp [dropSeg, hc]
    · rw [dropSeg, if_neg hc]
      simp only [List.length_cons]
      omega

theorem stripSlashes_length_le : ∀ l : List Char, (stripSlashes l).length ≤ l.length := by
  intro l
  induction l with
  | nil => simp [stripSlashes]
  | cons c r ih =>
    by_cases hc : c = slashChar
    · rw [stripSlashes, if_pos hc]
      simp only [List.length_cons]
      omega
    · simp [stripSlashes, hc]

/-- The head left by `stripSlashes` is never a slash. -/
theorem stripSlashes_head : ∀ (p : List Char) (c : Char) (r : List Char),
    stripSlashes p = c :: r → c ≠ slashChar := by
  intro p
  induction p with
  | nil => intro c r h; simp [stripSlashes] at h
  | cons c0 r0 ih =>
    intro c r h
    by_cases hc0 : c0 = slashChar
    · rw [stripSlashes, if_pos hc0] at h
      exact ih c r h
    · rw [stripSlashes, if_neg hc0] at h
      cases h
      exact hc0

/-- The sequence of slash-free segments of a path. -/
def segs : List Char → List (List Char)
  | [] => []
  | c :: r =>
    if c = slashChar then segs r else (c :: takeSeg r) :: segs (dropSeg r)
termination_by l => l.length
decreasing_by
  · simp only [List.length_cons]; omega
  · have := dropSeg_length_le r
    simp only [List.length_cons]
    omega

theorem segs_nil : segs [] = [] := by simp [segs]

theorem segs_cons_slash (c : Char) (l : List Char) (hc : c = slashChar) :
    segs (c :: l) = segs l := by
  rw [segs, if_pos hc]

theorem segs_cons_nonslash (c : Char) (l : List Char) (hc : ¬c = slashChar) :
    segs (c :: l) = (c :: takeSeg l) :: segs (dropSeg l) := by
  rw [segs, if_neg hc]

theorem segs_strip : ∀ p : List Char, segs (stripSlashes p) = segs p := by
  intro p
  induction p with
  | nil => rfl
  | cons c r ih =>
    by_cases hc : c = slashChar
    · rw [stripSlashes, if_pos hc, segs_cons_slash c r hc]
      exact ih
    · rw [stripSlashes, if_neg hc]

/-- Collapses every run of repeated slashes to a single slash. -/
def collapse : List Char → List Char
  | [] => []
  | [c] => [c]
  | c :: c2 :: r =>
    if c = slashChar ∧ c2 = slashChar then collapse (c2 :: r)
    else c :: collapse (c2 :: r)

/-- Segment-by-segment descent: the specification-side reading of lookup. -/
def lookupSegs : FNode → List (List Char) → Option FNode
  | t, [] => some t
  | t, s :: ss =>
    match t.children.find? (fun c => c.nd.name == s) with
    | some child => lookupSegs child ss
    | none => none

/-- For a slash-free name, the C comparison loop matches exactly when the
name is the first segment of the path, and then leaves the segment rest. -/
theorem matchName_eq : ∀ (name q : List Char), (∀ ch ∈ name, ch ≠ slashChar) →
    matchName name q = if name = takeSeg q then some (dropSeg q) else none := by
  intro name
  induction name with
  | nil =>
    intro q _
    cases q with
    | nil => simp [matchName, takeSeg, dropSeg]
    | cons c r =>
      by_cases hc : c = slashChar
      · rw [matchName, if_pos hc, takeSeg, if_pos hc, dropSeg, if_pos hc]
        simp
      · rw [matchName, if_neg hc, takeSeg, if_neg hc]
        simp
  | cons n ns ih =>
    intro q hname
    have hn : n ≠ slashChar := hname n (List.mem_cons_self _ _)
    have hns : ∀ ch ∈ ns, ch ≠ slashChar := fun ch hch =>
      hname ch (List.mem_cons_of_mem _ hch)
    cases q with
    | nil =>
      rw [matchName, takeSeg]
      simp
    | cons c r =>
      by_cases hc : c = slashChar
      · have hnc : n ≠ c := fun h => hn (h ▸ hc)
        rw [matchName, if_neg hnc, takeSeg, if_pos hc]
        simp
      · rw [matchName, takeSeg, if_neg hc, dropSeg, if_neg hc]
        by_cases hnc : n = c
        · rw [if_pos hnc, ih r hns]
          by_cases hrest : ns = takeSeg r
          · rw [if_pos hrest, if_pos (by rw [hnc, hrest])]
          · rw [if_neg hrest, if_neg (by simp [hrest])]
        · rw [if_neg hnc, if_neg (by simp [hnc])]

theorem namesOkListB_iff : ∀ cs : List FNode,
    namesOkListB cs = true ↔ ∀ c ∈ cs, namesOkB c = true := by
  intro cs
  induction cs with
  | nil => simp [namesOkListB]
  | cons c rest ih =>
    simp only [namesOkListB, Bool.and_eq_true, ih, List.mem_cons]
    constructor
    · rintro ⟨h1, h2⟩ x hx
      rcases hx with hx | hx
      · exact hx ▸ h1
      · exact h2 x hx
    · intro hall
      exact ⟨hall c (Or.inl rfl), fun x hx => hall x (Or.inr hx)⟩

theorem namesOkB_mk (d : NodeData) (cs : List FNode) :
    namesOkB (FNode.mk d cs) = true ↔
      ((∀ ch ∈ d.name, ch ≠ slashChar) ∧ ∀ c ∈ cs, namesOkB c = true) := by
  simp only [namesOkB, Bool.and_eq_true, List.all_eq_true, Bool.not_eq_true',
    beq_eq_false_iff_ne, ne_eq, namesOkListB_iff]

/-- Scanning the sibling list coincides with first-segment search followed
by descent on the segment rest. -/
theorem lookupChildren_eq : ∀ (cs : List FNode) (q : List Char),
    (∀ c ∈ cs, namesOkB c = true) →
    (∀ c ∈ cs, ∀ p, fnode_lookup c p = lookupSegs c (segs p)) →
    lookupChildren cs q =
      (match cs.find? (fun c => c.nd.name == takeSeg q) with
       | some child => lookupSegs child (segs (dropSeg q))
       | none => none) := by
  intro cs
  induction cs with
  | nil => intro q _ _; rfl
  | cons c0 rest ih =>
    intro q hok hih
    have hok0 : namesOkB c0 = true := hok c0 (List.mem_cons_self _ _)
    have hname : ∀ ch ∈ c0.nd.name, ch ≠ slashChar := by
      obtain ⟨d0, cs0⟩ := c0
      exact ((namesOkB_mk d0 cs0).mp hok0).1
    rw [lookupChildren, matchName_eq c0.nd.name q hname]
    by_cases hmatch : c0.nd.name = takeSeg q
    · rw [if_pos hmatch]
      have hfind : (c0 :: rest).find? (fun c => c.nd.name == takeSeg q) = some c0 := by
        rw [List.find?_cons_of_pos]
        simpa using hmatch
      rw [hfind]
      cases hdrop : dropSeg q with
      | nil => rw [segs_nil]; rfl
      | cons x r2 =>
        have := hih c0 (List.mem_cons_self _ _) (x :: r2)
        simpa using this
    · rw [if_neg hmatch]
      have hfind : (c0 :: rest).find? (fun c => c.nd.name == takeSeg q)
          = rest.find? (fun c => c.nd.name == takeSeg q) := by
        rw [List.find?_cons_of_neg]
        simpa using hmatch
      rw [hfind]
      exact ih q (fun c hc => hok c (List.mem_cons_of_mem _ hc))
        (fun c hc => hih c (List.mem_cons_of_mem _ hc))

/-- Lookup depends on a path only through its segment sequence. -/
theorem lookup_eq_segs : ∀ t : FNode, namesOkB t = true →
    ∀ p : List Char, fnode_lookup t p = lookupSegs t (segs p) := by
  refine FNode.indOn
    (fun t => namesOkB t = true → ∀ p, fnode_lookup t p = lookupSegs t (segs p)) ?_
  intro d cs IH hok p
  have hkids : ∀ c ∈ cs, namesOkB c = true := ((namesOkB_mk d cs).mp hok).2
  have hih : ∀ c ∈ cs, ∀ p', fnode_lookup c p' = lookupSegs c (segs p') :=
    fun c hc => IH c hc (hkids c hc)
  rw [fnode_lookup]
  rw [← segs_strip p]
  cases hq : stripSlashes p with
  | nil => rw [segs_nil]; rfl
  | cons c r =>
    have hc : c ≠ slashChar := stripSlashes_head p c r hq
    rw [segs_cons_nonslash c r hc]
    show lookupChildren cs (c :: r)
      = lookupSegs (FNode.mk d cs) ((c :: takeSeg r) :: segs (dropSeg r))
    rw [lookupChildren_eq cs (c :: r) hkids hih]
    have htake : takeSeg (c :: r) = c :: takeSeg r := by rw [takeSeg, if_neg hc]
    have hdrop : dropSeg (c :: r) = dropSeg r := by rw [dropSeg, if_neg hc]
    rw [htake, hdrop]
    rfl

theorem takeSeg_collapse : ∀ q : List Char, takeSeg (collapse q) = takeSeg q := by
  intro q
  induction q with
  | nil => rfl
  | cons c tail ih =>
    cases tail with
    | nil => rfl
    | cons c2 r =>
      by_cases hdup : c = slashChar ∧ c2 = slashChar
      · rw [collapse, if_pos hdup, ih, takeSeg, if_pos hdup.2, takeSeg, if_pos hdup.1]
      · rw [collapse, if_neg hdup]
        by_cases hc : c = slashChar
        · rw [takeSeg, if_pos hc, takeSeg, if_pos hc]
        · rw [takeSeg, if_neg hc, takeSeg, if_neg hc, ih]

theorem dropSeg_collapse : ∀ q : List Char, dropSeg (collapse q) = collapse (dropSeg q) := by
  intro q
  induction q with
  | nil => rfl
  | cons c tail ih =>
    cases tail with
    | nil => by_cases hc : c = slashChar <;> simp [collapse, dropSeg, hc]
    | cons c2 r =>
      by_cases hdup : c = slashChar ∧ c2 = slashChar
      · obtain ⟨hc, hc2⟩ := hdup
        rw [collapse, if_pos ⟨hc, hc2⟩, ih]
        have h1 : dropSeg (c2 :: r) = c2 :: r := by rw [dropSeg, if_pos hc2]
        have h2 : dropSeg (c :: c2 :: r) = c :: c2 :: r := by rw [dropSeg, if_pos hc]
        have h3 : collapse (c :: c2 :: r) = collapse (c2 :: r) := by
          rw [collapse, if_pos ⟨hc, hc2⟩]
        rw [h1, h2, h3]
      · rw [collapse, if_neg hdup]
        by_cases hc : c = slashChar
        · have h1 : dropSeg (c :: collapse (c2 :: r)) = c :: collapse (c2 :: r) := by
            rw [dropSeg, if_pos hc]
          have h2 : dropSeg (c :: c2 :: r) = c :: c2 :: r := by rw [dropSeg, if_pos hc]
          have h3 : collapse (c :: c2 :: r) = c :: collapse (c2 :: r) := by
            rw [collapse, if_neg hdup]
          rw [h1, h2, h3]
        · have h1 : dropSeg (c :: collapse (c2 :: r)) = dropSeg (collapse (c2 :: r)) := by
            rw [dropSeg, if_neg hc]
          have h2 : dropSeg (c :: c2 :: r) = dropSeg (c2 :: r) := by
            rw [dropSeg, if_neg hc]
          rw [h1, h2, ih]

theorem segs_collapse : ∀ p : List Char, segs (collapse p) = segs p
  | [] => rfl
  | [c] => rfl
  | c :: c2 :: r => by
    by_cases hdup : c = slashChar ∧ c2 = slashChar
    · rw [collapse, if_pos hdup, segs_collapse (c2 :: r), segs_cons_slash c _ hdup.1,
        segs_cons_slash c2 _ hdup.2]
    · rw [collapse, if_neg hdup]
      by_cases hc : c = slashChar
      · rw [segs_cons_slash c _ hc, segs_cons_slash c _ hc]
        exact segs_collapse (c2 :: r)
      · rw [segs_cons_nonslash c _ hc, segs_cons_nonslash c _ hc, takeSeg_collapse,
          dropSeg_collapse, segs_collapse (dropSeg (c2 :: r))]
termination_by p => p.length
decreasing_by
  · simp only [List.length_cons]; omega
  · simp only [List.length_cons]; omega
  · have := dropSeg_length_le (c2 :: r)
    simp only [List.length_cons] at *
    omega

/-- C7: `fnode_lookup` is a function of the tree and the path (determinism),
and on trees whose names are slash-free (the invariant `fnode_check`
asserts) it is path-canonical: collapsing repeated slashes in the path does
not change the result. -/
theorem C7_lookup_path_canonical (t : FNode) (p : List Char)
    (h : namesOkB t = true) :
    fnode_lookup t (collapse p) = fnode_lookup t p := by
  rw [lookup_eq_segs t h, lookup_eq_segs t h, segs_collapse]

/-- A directory node named `b` with no children. -/
def nodeB : FNode :=
  FNode.mk
    { refs := 1, fops := none, data := 0, i_atime := 0, i_mtime := 0, i_ctime := 0,
      i_mode := S_IFDIR ||| 0o555, i_size := 0, name := ['b'] } []

/-- A directory node named `a` whose only child is `b`. -/
def dirAB : FNode :=
  FNode.mk
    { refs := 1, fops := none, data := 0, i_atime := 0, i_mtime := 0, i_ctime := 0,
      i_mode := S_IFDIR ||| 0o555, i_size := 1, name := ['a'] } [nodeB]

/-- A root directory holding `a/b`. -/
def rootAB : FNode :=
  FNode.mk
    { refs := 1, fops := none, data := 0, i_atime := 0, i_mtime := 0, i_ctime := 0,
      i_mode := S_IFDIR ||| 0o555, i_size := 1, name := ['r'] } [dirAB]

/-- Witness for C7: on the tree `r/a/b`, looking up `//a///b` equals looking
up its collapsed form `/a/b`, and both find the node `b`. -/
theorem C7_witness :
    namesOkB rootAB = true ∧
    collapse ['/', '/', 'a', '/', '/', '/', 'b'] = ['/', 'a', '/', 'b'] ∧
    fnode_lookup rootAB (collapse ['/', '/', 'a', '/', '/', '/', 'b'])
      = fnode_lookup rootAB ['/', '/', 'a', '/', '/', '/', 'b'] ∧
    fnode_lookup rootAB ['/', 'a', '/', 'b'] = some nodeB :=
  ⟨by decide, by decide,
    C7_lookup_path_canonical rootAB ['/', '/', 'a', '/', '/', '/', 'b'] (by decide),
    by decide⟩
